import Mathlib

/-!
Verification development for the signals-in-threads repository
(src/example-03.cpp): a shallow embedding of the task runner's
registry (`TasksRegistry`), the task run entry point
(`Task::operator()`), and the monitor's cancellation walk
(`sig_handle_worker_routine`), together with theorems settling the
specification claims.

Modelling conventions:
* `pthread_t` thread identities and `const Task*` addresses are
  natural numbers; a `const Task*` value is `Option Nat` with `none`
  standing for a null pointer.
* The registry table `std::map<pthread_t, const Task*>` is an
  association list with unique keys; `_tasks[tid] = task` is
  insert-or-assign, `_tasks.erase(tid)` removes the key.
* An input file is its list of lines plus a flag telling whether the
  file ends with a newline (this decides when `std::getline` sets
  `eofbit` on the last successful read).
-/

set_option linter.unusedVariables false

/-- The registry table of src/example-03.cpp:
`std::map<pthread_t, const Task*> TasksRegistry::_tasks`,
as an association list from thread id to a possibly-null task pointer. -/
abbrev RegMap := List (Nat × Option Nat)

/-- `_tasks[tid] = task` (TasksRegistry constructor, src/example-03.cpp
lines 288-294): insert-or-assign at key `tid`.  `std::map::operator[]`
followed by assignment overwrites an existing entry and never fails. -/
def regInsert : RegMap → Nat → Option Nat → RegMap
  | [], tid, t => [(tid, t)]
  | (k, v) :: rest, tid, t =>
    if k = tid then (tid, t) :: rest else (k, v) :: regInsert rest tid t

/-- `_tasks.erase(tid)` (TasksRegistry destructor, src/example-03.cpp
lines 296-302): remove the entry at key `tid`. -/
def regErase : RegMap → Nat → RegMap
  | [], _ => []
  | (k, v) :: rest, tid =>
    if k = tid then regErase rest tid else (k, v) :: regErase rest tid

/-- `std::map::find`-style lookup in the registry table. -/
def regLookup : RegMap → Nat → Option (Option Nat)
  | [], _ => none
  | (k, v) :: rest, tid => if k = tid then some v else regLookup rest tid

/-- `TasksRegistry::GetRunningTasks` (src/example-03.cpp lines 304-313):
walk the table and push back every non-null task pointer, in table
order.  The result models the returned `std::list<const Task*>`, whose
elements keep the nullable pointer type. -/
def GetRunningTasks (m : RegMap) : List (Option Nat) :=
  (m.filter (fun p => p.2.isSome)).map Prod.snd

theorem regLookup_insert (m : RegMap) (tid tid' : Nat) (t : Option Nat) :
    regLookup (regInsert m tid t) tid' =
      if tid = tid' then some t else regLookup m tid' := by
  induction m with
  | nil => simp [regInsert, regLookup]
  | cons p rest ih =>
    obtain ⟨k, v⟩ := p
    by_cases hk : k = tid
    · subst hk
      by_cases h : k = tid' <;> simp [regInsert, regLookup, h]
    · simp only [regInsert, if_neg hk]
      by_cases h1 : k = tid'
      · have h2 : ¬tid = tid' := fun hc => hk (h1.trans hc.symm)
        simp [regLookup, h1, h2]
      · simp [regLookup, h1, ih]

theorem regLookup_erase (m : RegMap) (tid tid' : Nat) :
    regLookup (regErase m tid) tid' =
      if tid = tid' then none else regLookup m tid' := by
  induction m with
  | nil => simp [regErase, regLookup]
  | cons p rest ih =>
    obtain ⟨k, v⟩ := p
    by_cases hk : k = tid
    · subst hk
      by_cases h : k = tid'
      · subst h
        simp [regErase, regLookup, ih]
      · simp [regErase, regLookup, h, ih]
    · simp only [regErase, if_neg hk]
      by_cases h1 : k = tid'
      · have h2 : ¬tid = tid' := fun hc => hk (h1.trans hc.symm)
        simp [regLookup, h1, h2]
      · simp [regLookup, h1, ih]

theorem regInsert_regInsert (m : RegMap) (tid : Nat) (t1 t2 : Option Nat) :
    regInsert (regInsert m tid t1) tid t2 = regInsert m tid t2 := by
  induction m with
  | nil => simp [regInsert]
  | cons p rest ih =>
    obtain ⟨k, v⟩ := p
    by_cases hk : k = tid <;> simp [regInsert, hk, ih]

/-- Registry mutations as they occur in the source: `reg tid task` is
the `TasksRegistry` constructor run by thread `tid` (storing the task
pointer), `unreg tid` is the destructor run by thread `tid`. -/
inductive RegEvent where
  | reg (tid : Nat) (task : Option Nat)
  | unreg (tid : Nat)
deriving DecidableEq, Repr

/-- The thread whose registry entry an event touches. -/
def RegEvent.tidOf : RegEvent → Nat
  | .reg tid _ => tid
  | .unreg tid => tid

/-- Effect of one registry event on the table. -/
def applyEvent (m : RegMap) : RegEvent → RegMap
  | .reg tid task => regInsert m tid task
  | .unreg tid => regErase m tid

/-- Replay a sequence of registry events on a table. -/
def runOps (m : RegMap) (ops : List RegEvent) : RegMap :=
  ops.foldl applyEvent m

/-- The last event of the trace that touches thread `tid`, if any. -/
def lastEventOn (ops : List RegEvent) (tid : Nat) : Option RegEvent :=
  ops.foldl (fun acc e => if e.tidOf = tid then some e else acc) none

theorem lastEventOn_foldl (ops : List RegEvent) (tid : Nat)
    (a : Option RegEvent) :
    ops.foldl (fun acc e => if e.tidOf = tid then some e else acc) a =
      match lastEventOn ops tid with
      | some e => some e
      | none => a := by
  induction ops generalizing a with
  | nil => simp [lastEventOn]
  | cons e ops ih =>
    show List.foldl _ (if e.tidOf = tid then some e else a) ops = _
    rw [ih]
    have hcons :
        lastEventOn (e :: ops) tid =
          match lastEventOn ops tid with
          | some x => some x
          | none => if e.tidOf = tid then some e else none := by
      show List.foldl _ (if e.tidOf = tid then some e else none) ops = _
      rw [ih]
    rw [hcons]
    cases lastEventOn ops tid with
    | some x => rfl
    | none =>
      by_cases h : e.tidOf = tid <;> simp [h]

theorem lastEventOn_cons (e : RegEvent) (ops : List RegEvent) (tid : Nat) :
    lastEventOn (e :: ops) tid =
      match lastEventOn ops tid with
      | some x => some x
      | none => if e.tidOf = tid then some e else none := by
  show List.foldl _ (if e.tidOf = tid then some e else none) ops = _
  rw [lastEventOn_foldl]

theorem lastEventOn_tidOf (ops : List RegEvent) (tid : Nat) (e : RegEvent)
    (h : lastEventOn ops tid = some e) : e.tidOf = tid := by
  induction ops with
  | nil => simp [lastEventOn] at h
  | cons x ops ih =>
    rw [lastEventOn_cons] at h
    cases hrec : lastEventOn ops tid with
    | some y =>
      rw [hrec] at h
      exact ih (hrec.trans (by injection h with h; rw [h]))
    | none =>
      rw [hrec] at h
      by_cases hx : x.tidOf = tid
      · rw [if_pos hx] at h
        injection h with h
        rw [← h]; exact hx
      · rw [if_neg hx] at h
        exact absurd h (by simp)

/-- The registry entry of thread `tid` after replaying an event trace is
determined by the last event of the trace touching `tid`: a final
register leaves that task's pointer, a final unregister leaves nothing,
and a thread never touched keeps its prior entry. -/
theorem runOps_lookup (ops : List RegEvent) (m : RegMap) (tid : Nat) :
    regLookup (runOps m ops) tid =
      match lastEventOn ops tid with
      | some (.reg _ task) => some task
      | some (.unreg _) => none
      | none => regLookup m tid := by
  induction ops generalizing m with
  | nil => simp [runOps, lastEventOn]
  | cons e ops ih =>
    show regLookup (runOps (applyEvent m e) ops) tid = _
    rw [ih, lastEventOn_cons]
    cases hrec : lastEventOn ops tid with
    | some x => cases x <;> rfl
    | none =>
      cases e with
      | reg etid task =>
        by_cases h : etid = tid
        · simp [RegEvent.tidOf, h, applyEvent, regLookup_insert]
        · simp [RegEvent.tidOf, h, applyEvent, regLookup_insert]
      | unreg etid =>
        by_cases h : etid = tid
        · simp [RegEvent.tidOf, h, applyEvent, regLookup_erase]
        · simp [RegEvent.tidOf, h, applyEvent, regLookup_erase]


/-- The table is a map: each thread id keys at most one entry.
`std::map` maintains this by construction. -/
def KeysND : RegMap → Prop
  | [] => True
  | (k, _) :: rest => regLookup rest k = none ∧ KeysND rest

theorem keysND_insert (m : RegMap) (tid : Nat) (t : Option Nat)
    (h : KeysND m) : KeysND (regInsert m tid t) := by
  induction m with
  | nil => simp [KeysND, regInsert, regLookup]
  | cons p rest ih =>
    obtain ⟨k, v⟩ := p
    obtain ⟨h1, h2⟩ := h
    by_cases hk : k = tid
    · subst hk
      simp only [regInsert, if_pos rfl]
      exact ⟨h1, h2⟩
    · simp only [regInsert, if_neg hk]
      show regLookup (regInsert rest tid t) k = none ∧
        KeysND (regInsert rest tid t)
      refine ⟨?_, ih h2⟩
      rw [regLookup_insert, if_neg (fun hc : tid = k => hk hc.symm)]
      exact h1

theorem keysND_erase (m : RegMap) (tid : Nat)
    (h : KeysND m) : KeysND (regErase m tid) := by
  induction m with
  | nil => simp [KeysND, regErase]
  | cons p rest ih =>
    obtain ⟨k, v⟩ := p
    obtain ⟨h1, h2⟩ := h
    by_cases hk : k = tid
    · subst hk
      simp only [regErase, if_pos rfl]
      exact ih h2
    · simp only [regErase, if_neg hk]
      show regLookup (regErase rest tid) k = none ∧ KeysND (regErase rest tid)
      refine ⟨?_, ih h2⟩
      rw [regLookup_erase]
      simp [h1]

theorem keysND_runOps (ops : List RegEvent) (m : RegMap)
    (h : KeysND m) : KeysND (runOps m ops) := by
  induction ops generalizing m with
  | nil => exact h
  | cons e ops ih =>
    show KeysND (runOps (applyEvent m e) ops)
    apply ih
    cases e with
    | reg tid t => exact keysND_insert m tid t h
    | unreg tid => exact keysND_erase m tid h

theorem mem_of_regLookup (m : RegMap) (tid : Nat) (x : Option Nat)
    (h : regLookup m tid = some x) : (tid, x) ∈ m := by
  induction m with
  | nil => simp [regLookup] at h
  | cons p rest ih =>
    obtain ⟨k, v⟩ := p
    by_cases hk : k = tid
    · subst hk
      simp [regLookup] at h
      simp [h]
    · simp only [regLookup, if_neg hk] at h
      exact List.mem_cons_of_mem _ (ih h)

theorem regLookup_ne_none_of_mem (m : RegMap) (tid : Nat) (x : Option Nat)
    (h : (tid, x) ∈ m) : regLookup m tid ≠ none := by
  induction m with
  | nil => simp at h
  | cons p rest ih =>
    obtain ⟨k, v⟩ := p
    rcases List.mem_cons.mp h with h1 | h1
    · injection h1 with ha hb
      subst ha
      simp [regLookup]
    · by_cases hk : k = tid
      · simp [regLookup, hk]
      · simp only [regLookup, if_neg hk]
        exact ih h1

theorem regLookup_of_mem (m : RegMap) (tid : Nat) (x : Option Nat)
    (hnd : KeysND m) (h : (tid, x) ∈ m) : regLookup m tid = some x := by
  induction m with
  | nil => simp at h
  | cons p rest ih =>
    obtain ⟨k, v⟩ := p
    obtain ⟨hnd1, hnd2⟩ := hnd
    rcases List.mem_cons.mp h with h1 | h1
    · injection h1 with ha hb
      subst ha
      subst hb
      simp [regLookup]
    · by_cases hk : k = tid
      · subst hk
        exact absurd hnd1 (regLookup_ne_none_of_mem rest k x h1)
      · simp only [regLookup, if_neg hk]
        exact ih hnd2 h1

/-- Membership in the snapshot list returned by `GetRunningTasks`:
exactly the non-null pointers stored in the table. -/
theorem mem_getRunningTasks (m : RegMap) (x : Option Nat) :
    x ∈ GetRunningTasks m ↔ ∃ tid, (tid, x) ∈ m ∧ x.isSome = true := by
  unfold GetRunningTasks
  rw [List.mem_map]
  constructor
  · rintro ⟨q, hq, rfl⟩
    rw [List.mem_filter] at hq
    exact ⟨q.1, by simpa using hq.1, hq.2⟩
  · rintro ⟨tid, hmem, hsome⟩
    exact ⟨(tid, x), List.mem_filter.mpr ⟨hmem, hsome⟩, rfl⟩

/-- Claim C4: `GetRunningTasks` is a point-in-time snapshot.  Starting
from the empty table, after any sequence of register/unregister events
a task pointer is in the snapshot exactly when the last event on some
thread registered it and no later unregister of that thread occurred —
i.e. each task appears between its register and its unregister and at
no other time.  The snapshot is itself a freshly built value (the
source copies the pointers into a new `std::list` under the lock), so
later table mutations cannot change a snapshot already taken. -/
theorem snapshot_contains_exactly_registered (ops : List RegEvent) (t : Nat) :
    some t ∈ GetRunningTasks (runOps [] ops) ↔
      ∃ tid, lastEventOn ops tid = some (RegEvent.reg tid (some t)) := by
  rw [mem_getRunningTasks]
  constructor
  · rintro ⟨tid, hmem, _⟩
    have hnd : KeysND (runOps [] ops) := keysND_runOps ops [] trivial
    have hlook := regLookup_of_mem _ tid (some t) hnd hmem
    rw [runOps_lookup] at hlook
    refine ⟨tid, ?_⟩
    cases hle : lastEventOn ops tid with
    | none =>
      rw [hle] at hlook
      simp [regLookup] at hlook
    | some e =>
      have htid := lastEventOn_tidOf ops tid e hle
      cases e with
      | reg etid task =>
        rw [hle] at hlook
        simp at hlook
        simp [RegEvent.tidOf] at htid
        subst htid
        subst hlook
        rfl
      | unreg etid =>
        rw [hle] at hlook
        simp at hlook
  · rintro ⟨tid, hle⟩
    have hlook : regLookup (runOps [] ops) tid = some (some t) := by
      rw [runOps_lookup, hle]
    exact ⟨tid, mem_of_regLookup _ tid (some t) hlook, rfl⟩

/-- Claim C9: every element of the list returned by
`TasksRegistry::GetRunningTasks` is a non-null task pointer — the
`p.second != NULL` filter keeps null entries of the internal table out
of the returned snapshot. -/
theorem getRunningTasks_nonNull (m : RegMap) (x : Option Nat)
    (h : x ∈ GetRunningTasks m) : x.isSome = true := by
  rcases (mem_getRunningTasks m x).mp h with ⟨tid, _, hsome⟩
  exact hsome

/-- Witness for C9: a concrete table holding one null and one non-null
entry; the non-null pointer is in the snapshot and is non-null. -/
theorem getRunningTasks_nonNull_witness :
    some 3 ∈ GetRunningTasks [(0, some 3), (1, none)] ∧
      (some 3 : Option Nat).isSome = true :=
  ⟨by decide,
    getRunningTasks_nonNull [(0, some 3), (1, none)] (some 3) (by decide)⟩

/-- Register as the specification words describe it, for the
refinement comparison of claim C3 only: it fails (returns `none`) when
the calling thread is already registered without an intervening
unregister.  The source's register is `regInsert` (the `TasksRegistry`
constructor), which contains no such check and no assertion. -/
def registerSpec (m : RegMap) (tid : Nat) (task : Option Nat) :
    Option RegMap :=
  match regLookup m tid with
  | some _ => none
  | none => some (regInsert m tid task)

/-- Claim C3 counterexample: registering twice for thread 0 without an
intervening unregister does not fail in the source — the second
register succeeds and silently overwrites the entry with the new task
pointer — whereas the register described by the spec must refuse it.
The `TasksRegistry` constructor has no assert; `_tasks[tid] = task`
always succeeds. -/
theorem double_register_not_fatal :
    regLookup (regInsert (regInsert [] 0 (some 1)) 0 (some 2)) 0
        = some (some 2) ∧
      registerSpec (regInsert [] 0 (some 1)) 0 (some 2) = none :=
  ⟨rfl, rfl⟩

/-- Claim C3 amended: a second register on the same thread without an
intervening unregister silently overwrites the previous association
(last writer wins, no assertion, no failure), and a register performed
after a proper unregister on that thread succeeds and is observable. -/
theorem double_register_overwrites (m : RegMap) (tid : Nat)
    (t1 t2 : Option Nat) :
    regInsert (regInsert m tid t1) tid t2 = regInsert m tid t2 ∧
      regLookup (regInsert (regErase m tid) tid t2) tid = some t2 := by
  refine ⟨regInsert_regInsert m tid t1 t2, ?_⟩
  rw [regLookup_insert, if_pos rfl]

/-- `std::map<std::string, std::uint32_t> _word_counters` as an
association list.  (Only lookups and the sum of the counters are
observed, so the key ordering of `std::map` is immaterial.) -/
abbrev WordMap := List (String × Nat)

/-- The `count_word` lambda of `Task::operator()` (src/example-03.cpp
lines 251-254): `n = _word_counters[w]; _word_counters[w] = n + 1`,
i.e. increment the counter of `w`, default-inserting 0 first. -/
def bumpWord : WordMap → String → WordMap
  | [], w => [(w, 1)]
  | (k, n) :: rest, w =>
    if k = w then (k, n + 1) :: rest else (k, n) :: bumpWord rest w

/-- Counter of one word in the tally (0 when absent). -/
def lookupCount : WordMap → String → Nat
  | [], _ => 0
  | (k, n) :: rest, w => if k = w then n else lookupCount rest w

/-- The `words_total` summation of `Task::operator()`
(src/example-03.cpp lines 276-279). -/
def wordsTotal (wm : WordMap) : Nat :=
  (wm.map Prod.snd).sum

/-- Helper for `splitOnSpace`: remaining characters of the
`stringstream` plus the characters accumulated for the current token
(reversed). -/
def splitAux : List Char → List Char → List String
  | [], acc => [String.mk acc.reverse]
  | c :: rest, acc =>
    if c = ' ' then
      match rest with
      | [] => [String.mk acc.reverse]
      | _ :: _ => String.mk acc.reverse :: splitAux rest []
    else splitAux rest (c :: acc)

/-- The `split_line_and_count_words` tokenizer of `Task::operator()`
(src/example-03.cpp lines 256-263): repeated
`std::getline(ss, word, ' ')`.  Each read succeeds as long as at least
one character (possibly just the delimiter) can be extracted, so the
token list splits at every single space character: consecutive or
leading spaces yield empty tokens, a trailing space yields none, and
no character other than `' '` separates tokens. -/
def splitOnSpace (s : String) : List String :=
  match s.data with
  | [] => []
  | c :: rest => splitAux (c :: rest) []

/-- Process one line: tokenize it and bump each token's counter, in
order (`split_line_and_count_words` followed by `count_word` calls). -/
def countLine (wm : WordMap) (l : String) : WordMap :=
  (splitOnSpace l).foldl bumpWord wm

/-- An input text file: its lines in order, plus whether the file ends
with a newline character.  The flag decides whether the `std::getline`
that reads the final line already sets `eofbit` (no trailing newline)
or leaves it to one further failing read (trailing newline). -/
structure IFile where
  lines : List String
  trailNL : Bool
deriving DecidableEq, Repr

/-- The read loop of `Task::operator()` (src/example-03.cpp lines
268-274), driven by explicit fuel:

  while (!in_file.eof()) {
    if (!std::getline(in_file, line) || line.empty()) continue;
    _line_count++;
    split_line_and_count_words(line);
  }

State: `rem` are the lines not yet read, `tNL` records whether the
file ends with a newline, `eofbit` is the stream's eof state, `lc` is
`_line_count` and `wm` is `_word_counters`.  `none` means the fuel ran
out before the loop exited. -/
def taskLoopFuel : Nat → List String → Bool → Bool → Nat → WordMap →
    Option (Nat × WordMap)
  | 0, _, _, _, _, _ => none
  | fuel + 1, rem, tNL, eofbit, lc, wm =>
    if eofbit then some (lc, wm)
    else
      match rem with
      | [] => taskLoopFuel fuel [] tNL true lc wm
      | l :: rest =>
        if l = "" then
          taskLoopFuel fuel rest tNL (rest.isEmpty && !tNL) lc wm
        else
          taskLoopFuel fuel rest tNL (rest.isEmpty && !tNL) (lc + 1)
            (countLine wm l)

/-- The observable outcome of one `Task::operator()` invocation: the
registry events it performed (constructor and destructor of the scoped
`TasksRegistry registry_entry`), and — when the loop ran to completion
— the final `_line_count` and `_word_counters` (`none` on the
open-failure early return, where neither was ever assigned). -/
structure TaskResult where
  events : List RegEvent
  counts : Option (Nat × WordMap)
deriving DecidableEq, Repr

/-- `Task::operator()` (src/example-03.cpp lines 237-284) run by
thread `tid` on the task object `self`.  `file` is `none` when the
`std::ifstream` cannot open the bound file.  `cancelRequested` models
whether `pthread_cancel` has been requested for thread `tid`; the
source body contains no read of any cancellation state — no flag, no
checkpoint — so the parameter is never consulted and the result cannot
depend on it.  Order of actions, from the source: the scoped
`TasksRegistry registry_entry(this)` registers FIRST, then the file is
opened; on failure the early `return` runs the destructor
(unregister); on success the loop runs, the summary is printed, and
the destructor unregisters. -/
def taskRun (tid self : Nat) (cancelRequested : Bool)
    (file : Option IFile) : TaskResult :=
  match file with
  | none =>
    { events := [RegEvent.reg tid (some self), RegEvent.unreg tid]
      counts := none }
  | some f =>
    { events := [RegEvent.reg tid (some self), RegEvent.unreg tid]
      counts := taskLoopFuel (f.lines.length + 2) f.lines f.trailNL
        false 0 [] }

/-- Number of non-empty lines: the `_line_count` a complete run
reports. -/
def countNonEmpty (lines : List String) : Nat :=
  (lines.filter (fun l => !(l == ""))).length

/-- Single-threaded reference counter over the file's lines, using the
source's own tokenizer: skip empty lines, tokenize the rest on single
spaces, bump each token. -/
def refCounts (lines : List String) : WordMap :=
  lines.foldl (fun m l => if l = "" then m else countLine m l) []

/-- Reference counter following the specification's words, for the
refinement comparison of claim C5 only: for each non-empty line,
tokenize on whitespace (any whitespace character separates; empty
tokens do not arise) and increment each resulting word's counter. -/
def specWordsAux : List Char → List Char → List String
  | [], acc => if acc.isEmpty then [] else [String.mk acc.reverse]
  | c :: rest, acc =>
    if c.isWhitespace then
      if acc.isEmpty then specWordsAux rest []
      else String.mk acc.reverse :: specWordsAux rest []
    else specWordsAux rest (c :: acc)

/-- Whitespace tokenizer described by the spec (claim C5 comparison). -/
def specWords (s : String) : List String :=
  specWordsAux s.data []

/-- Word tally produced by the spec-described reference
(claim C5 comparison). -/
def specCounts (lines : List String) : WordMap :=
  lines.foldl
    (fun m l => if l = "" then m else (specWords l).foldl bumpWord m) []

theorem taskLoopFuel_complete (rem : List String) :
    ∀ fuel tNL lc wm, rem.length + 2 ≤ fuel →
      taskLoopFuel fuel rem tNL false lc wm =
        some (lc + countNonEmpty rem,
          rem.foldl (fun m l => if l = "" then m else countLine m l) wm) := by
  induction rem with
  | nil =>
    intro fuel tNL lc wm hf
    obtain ⟨g, rfl⟩ : ∃ g, fuel = g + 2 := ⟨fuel - 2, by omega⟩
    simp [taskLoopFuel, countNonEmpty]
  | cons l rest ih =>
    intro fuel tNL lc wm hf
    simp only [List.length_cons] at hf
    obtain ⟨g, rfl⟩ : ∃ g, fuel = g + 1 := ⟨fuel - 1, by omega⟩
    have hg : rest.length + 2 ≤ g := by omega
    have hstep : taskLoopFuel (g + 1) (l :: rest) tNL false lc wm
        = if l = "" then
            taskLoopFuel g rest tNL (rest.isEmpty && !tNL) lc wm
          else
            taskLoopFuel g rest tNL (rest.isEmpty && !tNL) (lc + 1)
              (countLine wm l) := rfl
    cases heof : rest.isEmpty && !tNL with
    | false =>
      by_cases hl : l = ""
      · rw [hstep, if_pos hl, heof, ih g tNL lc wm hg]
        simp [countNonEmpty, hl]
      · rw [hstep, if_neg hl, heof, ih g tNL (lc + 1) (countLine wm l) hg]
        simp only [List.foldl_cons, if_neg hl]
        simp [countNonEmpty, hl]
        omega
    | true =>
      rw [Bool.and_eq_true] at heof
      obtain ⟨hre, htn⟩ := heof
      have hrest : rest = [] := by cases rest <;> simp_all
      have htnl : tNL = false := by cases tNL <;> simp_all
      subst hrest
      subst htnl
      obtain ⟨g2, rfl⟩ : ∃ g2, g = g2 + 2 := ⟨g - 2, by omega⟩
      by_cases hl : l = ""
      · rw [hstep, if_pos hl]
        simp [taskLoopFuel, countNonEmpty, hl]
      · rw [hstep, if_neg hl]
        simp [taskLoopFuel, countNonEmpty, hl, countLine]

theorem taskRun_counts (tid self : Nat) (c : Bool) (f : IFile) :
    (taskRun tid self c (some f)).counts
      = some (countNonEmpty f.lines, refCounts f.lines) := by
  show taskLoopFuel (f.lines.length + 2) f.lines f.trailNL false 0 [] = _
  rw [taskLoopFuel_complete f.lines (f.lines.length + 2) f.trailNL 0 []
    (le_refl _)]
  rw [Nat.zero_add]
  rfl

/-- Claim C1 counterexample: run a task on the two-line file
`["a", "b"]` with cancellation already requested for its thread.  The
claimed checkpoint after each processed line would make the task stop
after at most one line (reported line count 0 or 1); the code's loop
(src/example-03.cpp lines 268-274) never reads any cancellation state
and processes both lines. -/
theorem no_cancellation_checkpoint_counterexample :
    (taskRun 0 7 true (some ⟨["a", "b"], true⟩)).counts.map Prod.fst
        = some 2 ∧
      ¬(taskRun 0 7 true (some ⟨["a", "b"], true⟩)).counts.map Prod.fst
        = some 1 ∧
      ¬(taskRun 0 7 true (some ⟨["a", "b"], true⟩)).counts.map Prod.fst
        = some 0 :=
  ⟨by decide, by decide, by decide⟩

/-- Claim C1 amended: cancellation is not checkpoint-based in the
task.  `Task::operator()`'s run loop contains no cancellation
checkpoint: its outcome is identical whether or not cancellation has
been requested for the task's thread, and the task processes every
non-empty line of its file regardless of any cancellation request.
(Tasks are stopped, if at all, by the monitor's `pthread_cancel` — an
asynchronous thread-level mechanism outside the task's own code, see
`cancelTasks` — not by a task-controlled checkpoint.) -/
theorem no_cancellation_checkpoint (tid self : Nat) (c : Bool) (f : IFile) :
    taskRun tid self c (some f) = taskRun tid self false (some f) ∧
      (taskRun tid self c (some f)).counts.map Prod.fst
        = some (countNonEmpty f.lines) := by
  refine ⟨rfl, ?_⟩
  rw [taskRun_counts]
  rfl

/-- Claim C2 counterexample: a task whose file open fails
(`file = none`) has nevertheless registered — the register event is in
its event trace, because the scoped `TasksRegistry registry_entry(this)`
is constructed before the `std::ifstream` is opened
(src/example-03.cpp lines 239-249).  This refutes "returns immediately
without having registered itself". -/
theorem register_before_open_counterexample :
    RegEvent.reg 0 (some 7) ∈ (taskRun 0 7 false none).events := by
  decide

/-- Claim C2 amended: when the file open fails the task has already
registered (registration is the first action of the run, before the
open attempt), logs and returns early without counting anything, and
the scoped guard unregisters on that exit path — so its event trace is
exactly register-then-unregister and, once the run has returned, the
registry holds no entry for the task's thread, whatever the prior
table was. -/
theorem open_failure_net_unregistered (tid self : Nat) (c : Bool)
    (m : RegMap) :
    (taskRun tid self c none).events
        = [RegEvent.reg tid (some self), RegEvent.unreg tid] ∧
      regLookup (runOps m (taskRun tid self c none).events) tid = none ∧
      (taskRun tid self c none).counts = none := by
  refine ⟨rfl, ?_, rfl⟩
  show regLookup (regErase (regInsert m tid (some self)) tid) tid = none
  rw [regLookup_erase, if_pos rfl]

/-- Claim C5 counterexample: on the one-line file `"a<TAB>b"` the code
counts the single token `"a\tb"` (its tokenizer splits only at the
space character `' '`), so the word `"a"` has count 0; the
spec-described whitespace tokenizer counts `"a"` once.  The final
counts therefore differ from the claimed single-threaded
whitespace-tokenizing reference. -/
theorem whitespace_tokenizer_counterexample :
    lookupCount
        ((taskRun 0 7 false (some ⟨["a\tb"], true⟩)).counts.getD (0, [])).2
        "a" = 0 ∧
      lookupCount (specCounts ["a\tb"]) "a" = 1 ∧
      (taskRun 0 7 false (some ⟨["a\tb"], true⟩)).counts
        = some (1, [("a\tb", 1)]) :=
  ⟨by decide, by decide, by decide⟩

/-- Claim C5 amended: for every readable input file that a Task
processes to completion, the final per-word counts equal those of a
single-threaded reference that, for each non-empty line, splits the
line at each single space character `' '` (consecutive or leading
spaces yield empty tokens, which are counted too; no other whitespace
separates tokens) and increments the counter of each resulting token
by one — and the final line count is the number of non-empty lines. -/
theorem counts_equal_single_threaded_reference (tid self : Nat) (c : Bool)
    (f : IFile) :
    (taskRun tid self c (some f)).counts
      = some (countNonEmpty f.lines, refCounts f.lines) :=
  taskRun_counts tid self c f

/-- Claim C8: a Task run on an empty input file completes normally,
with a final line count of 0, an empty word tally, and a total word
count of 0. -/
theorem empty_file_run (tid self : Nat) (c t : Bool) :
    (taskRun tid self c (some ⟨[], t⟩)).counts = some (0, []) ∧
      wordsTotal [] = 0 :=
  ⟨rfl, rfl⟩

/-- Claim C10: for every finite input file, the read loop of
`Task::operator()` terminates — each iteration either consumes a line
or observes end-of-stream — so a run whose file opened successfully
always reaches its completion summary (the loop needs at most
lines + 2 iterations, the fuel `taskRun` supplies). -/
theorem read_loop_terminates (tid self : Nat) (c : Bool) (f : IFile) :
    ((taskRun tid self c (some f)).counts).isSome = true := by
  rw [taskRun_counts]
  rfl

/-- The cancellation walk of `sig_handle_worker_routine`
(src/example-03.cpp lines 101-108): for each task of the registry
snapshot the monitor calls `pthread_cancel(task->tid())`; a nonzero
return is reported via `perror` and `std::cerr` and the loop simply
continues — the body has no break or early return.  The list elements
are the cancel targets (the tasks' thread ids); `deliver` models
whether the `pthread_cancel` call for a target succeeds; the result
records each attempted target with its delivery outcome. -/
def cancelTasks (deliver : Nat → Bool) : List Nat → List (Nat × Bool)
  | [] => []
  | t :: rest => (t, deliver t) :: cancelTasks deliver rest

theorem cancelTasks_attempts_all (deliver : Nat → Bool) (ts : List Nat) :
    ∀ u ∈ ts, (u, deliver u) ∈ cancelTasks deliver ts := by
  induction ts with
  | nil =>
    intro u hu
    simp at hu
  | cons x rest ih =>
    intro u hu
    rcases List.mem_cons.mp hu with h | h
    · subst h
      simp [cancelTasks]
    · exact List.mem_cons_of_mem _ (ih u h)

/-- Claim C6: when delivery of the cancellation request fails for one
specific task in the snapshot, that failure is recorded (logged) and
skipped, and every task of the snapshot — including every remaining
one — still receives its own delivery attempt. -/
theorem cancel_walk_continues_after_failure (deliver : Nat → Bool)
    (ts : List Nat) (t : Nat) (hmem : t ∈ ts)
    (hfail : deliver t = false) :
    (t, false) ∈ cancelTasks deliver ts ∧
      ∀ u ∈ ts, (u, deliver u) ∈ cancelTasks deliver ts := by
  have hall := cancelTasks_attempts_all deliver ts
  exact ⟨by simpa [hfail] using hall t hmem, hall⟩

/-- Witness for C6: three tasks, delivery fails exactly for task 1;
the failure is recorded and tasks 0 and 2 still get their attempts. -/
theorem cancel_walk_continues_after_failure_witness :
    ((1 ∈ [0, 1, 2] ∧ (fun n => decide (n ≠ 1)) 1 = false) ∧
      (1, false) ∈ cancelTasks (fun n => decide (n ≠ 1)) [0, 1, 2] ∧
        ∀ u ∈ [0, 1, 2],
          (u, (fun n => decide (n ≠ 1)) u)
            ∈ cancelTasks (fun n => decide (n ≠ 1)) [0, 1, 2]) :=
  ⟨⟨by decide, by decide⟩,
    cancel_walk_continues_after_failure (fun n => decide (n ≠ 1)) [0, 1, 2]
      1 (by decide) (by decide)⟩
